import Mathlib

/-!
Verification of the What-my-GPA application core (src/src/App.tsx).

The embedding translates the core logic of `App.tsx` into Lean:
JavaScript numbers are modelled as `ℚ` (all quantities involved are exact
decimals), a possibly-NaN number is modelled as `Option ℚ` (`none` = NaN),
fallible operations return `Option`, and the persisted localStorage slot is
modelled at the JSON-value level: a stored string is represented by the JSON
value it parses to, with extra cases for a missing key, the empty string
(falsy in JavaScript) and text that is not well-formed JSON.
-/

namespace WhatMyGpa

/-- A validated credit record, the element type of the `credits` state
(`z.infer<typeof creditsSchema>` in App.tsx): `grade` a string, `credits` an
integer (guaranteed by `z.number().int()`), `note` an optional string. -/
structure Credit where
  grade : String
  credits : Int
  note : Option String
  deriving DecidableEq, Repr

/-- JSON values, as produced by `JSON.parse`: null, booleans, numbers
(exact rationals; `JSON.parse` never yields NaN or infinities), strings,
arrays and objects (ordered key/value lists). -/
inductive Json where
  | null : Json
  | bool : Bool → Json
  | num : ℚ → Json
  | str : String → Json
  | arr : List Json → Json
  | obj : List (String × Json) → Json

/-- The `gradeValue` lookup table from App.tsx lines 17–26.  An object
lookup with a key that is not a property yields `undefined`, modelled as
`none`. -/
def gradeValue : String → Option ℚ
  | "A" => some 4
  | "B+" => some 3.5
  | "B" => some 3
  | "C+" => some 2.5
  | "C" => some 2
  | "D+" => some 1.5
  | "D" => some 1
  | "F" => some 0
  | _ => none

/-- `calculateGpa` (App.tsx lines 54–72), as a pure function from the list of
records to the computed GPA.  The two `reduce` calls are `foldl` from 0; a
lookup of a grade outside the table gives `undefined`, and arithmetic on it
gives NaN, modelled by the `Option` bind/map (`none` = NaN).  The empty list
is short-circuited to 0 before the division. -/
def calculateGpa (credits : List Credit) : Option ℚ :=
  if credits.length = 0 then
    some 0
  else
    let totalCredit : ℚ := credits.foldl (fun prev curr => prev + (curr.credits : ℚ)) 0
    let totalGrade : Option ℚ :=
      credits.foldl
        (fun prev curr =>
          prev.bind fun p => (gradeValue curr.grade).map fun g => p + g * (curr.credits : ℚ))
        (some 0)
    totalGrade.map fun tg => tg / totalCredit

/-- Abstract syntax of the regular-expression fragment needed for the
grade pattern `/^[A-D][+-]?|F$/`: characters, character classes, `?`,
concatenation, alternation and the `^` and `$` anchors. -/
inductive Regex where
  | char : Char → Regex
  | cls : List Char → Regex
  | opt : Regex → Regex
  | seq : Regex → Regex → Regex
  | alt : Regex → Regex → Regex
  | startAnchor : Regex
  | endAnchor : Regex

/-- `Regex.run cs r pos` returns the list of positions at which a match of
`r` that starts at position `pos` of `cs` can end (empty list = no match).
Without the `m` flag `^` matches only at position 0 and `$` only at the end
of the input. -/
def Regex.run (cs : List Char) : Regex → ℕ → List ℕ
  | .char c, pos =>
    match cs[pos]? with
    | some c2 => if c2 = c then [pos + 1] else []
    | none => []
  | .cls l, pos =>
    match cs[pos]? with
    | some c2 => if c2 ∈ l then [pos + 1] else []
    | none => []
  | .opt r, pos => r.run cs pos ++ [pos]
  | .seq r1 r2, pos => (r1.run cs pos).flatMap (r2.run cs)
  | .alt r1 r2, pos => r1.run cs pos ++ r2.run cs pos
  | .startAnchor, pos => if pos = 0 then [pos] else []
  | .endAnchor, pos => if pos = cs.length then [pos] else []

/-- The grade pattern `/^[A-D][+-]?|F$/` from App.tsx line 9.  Alternation
binds loosest, so the pattern is `(^[A-D][+-]?) | (F$)`. -/
def gradeRegex : Regex :=
  Regex.alt
    (Regex.seq Regex.startAnchor
      (Regex.seq (Regex.cls ['A', 'B', 'C', 'D']) (Regex.opt (Regex.cls ['+', '-']))))
    (Regex.seq (Regex.char 'F') Regex.endAnchor)

/-- `RegExp.prototype.test` on the grade pattern: a (non-global) regex test
succeeds iff a match starts at some position of the string. -/
def gradeRegexTest (s : String) : Bool :=
  (List.range (s.data.length + 1)).any fun i => !(Regex.run s.data gradeRegex i).isEmpty

/-- Field lookup in a JSON object; a missing key is JavaScript `undefined`
(`none`). -/
def lookupField (fields : List (String × Json)) (key : String) : Option Json :=
  match fields.find? (fun p => p.1 = key) with
  | some p => some p.2
  | none => none

/-- `creditSchema.safeParse` (App.tsx lines 8–12) on a JSON value: the value
must be an object; `grade` must be a string passing the regex test;
`credits` must be a number that is an integer between 1 and 4 inclusive;
`note`, if present, must be a string.  Unknown keys are stripped (zod
default).  `none` models a failed parse. -/
def parseCredit (j : Json) : Option Credit :=
  match j with
  | Json.obj fields =>
    match lookupField fields "grade" with
    | some (Json.str g) =>
      if gradeRegexTest g then
        match lookupField fields "credits" with
        | some (Json.num q) =>
          if q.den = 1 ∧ 1 ≤ q ∧ q ≤ 4 then
            match lookupField fields "note" with
            | none => some { grade := g, credits := q.num, note := none }
            | some (Json.str s) => some { grade := g, credits := q.num, note := some s }
            | some _ => none
          else none
        | _ => none
      else none
    | _ => none
  | _ => none

/-- Element-wise validation of an array: zod succeeds on the array iff
every element parses, keeping the elements in order. -/
def parseCreditList : List Json → Option (List Credit)
  | [] => some []
  | x :: xs => (parseCredit x).bind fun c => (parseCreditList xs).map fun cs => c :: cs

/-- `creditsSchema.safeParse` (App.tsx line 14): the value must be an array
and every element must satisfy `creditSchema`. -/
def parseCredits (j : Json) : Option (List Credit) :=
  match j with
  | Json.arr xs => parseCreditList xs
  | _ => none

/-- `JSON.stringify` of one record, at the JSON-value level.  Object keys
are emitted in insertion order (`grade`, `credits`, `note`); a `note` that
is `undefined` is omitted entirely. -/
def creditToJson (c : Credit) : Json :=
  Json.obj
    ([("grade", Json.str c.grade), ("credits", Json.num (c.credits : ℚ))] ++
      match c.note with
      | some s => [("note", Json.str s)]
      | none => [])

/-- `JSON.stringify` of the whole list. -/
def creditsToJson (l : List Credit) : Json :=
  Json.arr (l.map creditToJson)

/-- Contents of the persisted `"credits"` localStorage slot: the key can be
absent, hold the empty string (falsy, so `getItem(..) || "[]"` replaces it),
hold text that is not well-formed JSON (on which `JSON.parse` throws), or
hold a string that parses to the JSON value `j`. -/
inductive Stored where
  | missing : Stored
  | empty : Stored
  | malformed : Stored
  | json : Json → Stored

/-- `JSON.parse(localStorage.getItem("credits") || "[]")` (App.tsx line
109): a missing key gives `null`, which is falsy, so `"[]"` is parsed
instead; likewise for the empty string.  `none` models a thrown
`SyntaxError`. -/
def loadRaw : Stored → Option Json
  | Stored.missing => some (Json.arr [])
  | Stored.empty => some (Json.arr [])
  | Stored.malformed => none
  | Stored.json j => some j

/-- The component state relevant to the core logic: `gpa` (possibly NaN,
hence `Option ℚ`), the `credits` list, the currently selected `grade`
(string or null) and `credit` (number or null), and the pending `note`
text. -/
structure AppState where
  gpa : Option ℚ
  credits : List Credit
  grade : Option String
  credit : Option Int
  note : String

/-- The state together with the persisted storage slot. -/
structure World where
  state : AppState
  storage : Stored

/-- The initial state: `useState` initialisers at App.tsx lines 29–33. -/
def initialState : AppState :=
  { gpa := some 0, credits := [], grade := none, credit := none, note := "" }

/-- Models `localStorage.setItem("credits", JSON.stringify(l))` as performed
by `handleAdd` and `handleRemove`. -/
def persist (l : List Credit) : Stored :=
  Stored.json (creditsToJson l)

/-- `handleAdd` (App.tsx lines 74–85).  `if (!grade) return` rejects a null
grade and the (unreachable through the UI) empty string, both falsy;
`if (!credit) return` rejects null and 0.  Otherwise the record is appended,
the GPA recomputed, the list persisted and the pending note cleared.  The
stored record always carries the `note` field because the `note` state is a
plain string. -/
def handleAdd (w : World) : World :=
  match w.state.grade, w.state.credit with
  | some g, some cr =>
    if g.isEmpty then w
    else if cr = 0 then w
    else
      let currCredits := w.state.credits ++ [{ grade := g, credits := cr, note := some w.state.note }]
      { state := { w.state with gpa := calculateGpa currCredits, credits := currCredits, note := "" },
        storage := persist currCredits }
  | _, _ => w

/-- `Array.prototype.splice(index, 1)` restricted to its effect on the list:
a negative start is `max(length + index, 0)` (which `Int.toNat` computes), a
non-negative start is `min(index, length)`; one element at the start
position is removed when it exists. -/
def spliceRemoveOne {α : Type} (l : List α) (index : Int) : List α :=
  let start : ℕ :=
    if index < 0 then ((l.length : Int) + index).toNat
    else min index.toNat l.length
  l.take start ++ l.drop (start + 1)

/-- `handleRemove` (App.tsx lines 87–95): copies the list, splices out one
element at `index`, recomputes the GPA and persists the result
unconditionally. -/
def handleRemove (w : World) (index : Int) : World :=
  let currCredits := spliceRemoveOne w.state.credits index
  { state := { w.state with gpa := calculateGpa currCredits, credits := currCredits },
    storage := persist currCredits }

/-- `handleRemoveAll` (App.tsx lines 97–101): clears the list, recomputes
the GPA of the empty list, and removes the storage key
(`localStorage.removeItem`, not a write of `[]`). -/
def handleRemoveAll (w : World) : World :=
  { state := { w.state with gpa := calculateGpa [], credits := [] },
    storage := Stored.missing }

/-- The hydration effect (App.tsx lines 108–116): read and parse the stored
slot (`none` models the uncaught exception of `JSON.parse` on malformed
text), validate with `creditsSchema.safeParse`, and on success install the
validated list and recompute the GPA; on a failed validation the state is
left untouched. -/
def load (w : World) : Option World :=
  match loadRaw w.storage with
  | none => none
  | some j =>
    match parseCredits j with
    | some data =>
      some { w with state := { w.state with gpa := calculateGpa data, credits := data } }
    | none => some w

/-- `Number.prototype.toFixed` on an exact rational: rounds to `d` decimal
digits picking, between the two nearest candidates, the larger one
(ECMA-262: "if there are two such n, pick the larger n"), i.e. the floor of
the shifted value plus one half. -/
def toFixed (val : ℚ) (d : ℕ) : ℚ :=
  ((⌊val * 10 ^ d + 1 / 2⌋ : ℤ) : ℚ) / 10 ^ d

/-- `Math.round`: the floor of the argument plus one half (half-way cases
round towards positive infinity). -/
def mathRound (x : ℚ) : ℚ :=
  ((⌊x + 1 / 2⌋ : ℤ) : ℚ)

/-- The `round` helper (App.tsx lines 46–52):
`+(Math.round(+(val.toFixed(d) + "e+" + d)) + "e-" + d)` — the value is
rounded to `d` digits by `toFixed`, shifted left by `d` digits, passed
through `Math.round`, and shifted back. -/
def round (val : ℚ) (decimals : ℕ) : ℚ :=
  mathRound (toFixed val decimals * 10 ^ decimals) / 10 ^ decimals

/-- The GPA shown by the heading at App.tsx line 225:
`isHover ? gpa : round(gpa, 2)` (the rounding mapped over a possibly-NaN
value). -/
def displayedGpa (s : AppState) (isHover : Bool) : Option ℚ :=
  if isHover then s.gpa else s.gpa.map fun g => round g 2

/-- Modelled from the spec's words (claim C4): the claimed grade pattern,
"one of {A,B,C,D} optionally followed by {+,-}, or exactly F", read as an
exact whole-string match. -/
def specGradePattern (s : String) : Bool :=
  ["A", "A+", "A-", "B", "B+", "B-", "C", "C+", "C-", "D", "D+", "D-", "F"].contains s

/-- The validity predicate `creditSchema` induces on an already-typed
record: the grade passes the regex test and the credits lie in `[1, 4]`. -/
def validCredit (c : Credit) : Prop :=
  gradeRegexTest c.grade = true ∧ 1 ≤ c.credits ∧ c.credits ≤ 4

instance (c : Credit) : Decidable (validCredit c) := by
  unfold validCredit
  infer_instance

/-! ## Helper lemmas -/

/-- The `reduce` accumulating the credit hours is the sum of the credit
hours. -/
lemma foldl_credit_sum (l : List Credit) (a : ℚ) :
    l.foldl (fun prev curr => prev + (curr.credits : ℚ)) a
      = a + (l.map fun c => (c.credits : ℚ)).sum := by
  induction l generalizing a with
  | nil => simp
  | cons c tl ih => simp [ih, add_assoc]

/-- When every grade is in the table, the `reduce` accumulating the quality
points is the sum of quality value times credit hours. -/
lemma foldl_quality_sum (l : List Credit) (a : ℚ)
    (h : ∀ c ∈ l, (gradeValue c.grade).isSome) :
    l.foldl
        (fun prev curr =>
          prev.bind fun p => (gradeValue curr.grade).map fun g => p + g * (curr.credits : ℚ))
        (some a)
      = some (a + (l.map fun c => (gradeValue c.grade).getD 0 * (c.credits : ℚ)).sum) := by
  induction l generalizing a with
  | nil => simp
  | cons c tl ih =>
    obtain ⟨g, hg⟩ := Option.isSome_iff_exists.mp (h c (by simp))
    have htl : ∀ c2 ∈ tl, (gradeValue c2.grade).isSome := fun c2 hc2 => h c2 (by simp [hc2])
    simp [hg, ih _ htl, add_assoc]

/-! ## C1, C2: the GPA engine -/

/-- C1: for every non-empty list of records whose grades all lie in the
Grade Table, `calculateGpa` is exactly the sum of quality value times
credits divided by the sum of credits, where the quality values are the
fixed table A=4, B+=3.5, B=3, C+=2.5, C=2, D+=1.5, D=1, F=0. -/
theorem gpa_weighted_average (l : List Credit) (hne : l ≠ [])
    (hval : ∀ c ∈ l, (gradeValue c.grade).isSome) :
    (gradeValue "A" = some 4 ∧ gradeValue "B+" = some 3.5 ∧ gradeValue "B" = some 3 ∧
      gradeValue "C+" = some 2.5 ∧ gradeValue "C" = some 2 ∧ gradeValue "D+" = some 1.5 ∧
      gradeValue "D" = some 1 ∧ gradeValue "F" = some 0) ∧
    calculateGpa l =
      some ((l.map fun c => (gradeValue c.grade).getD 0 * (c.credits : ℚ)).sum /
        (l.map fun c => (c.credits : ℚ)).sum) := by
  refine ⟨⟨rfl, rfl, rfl, rfl, rfl, rfl, rfl, rfl⟩, ?_⟩
  unfold calculateGpa
  rw [if_neg (by simpa using hne)]
  rw [foldl_quality_sum l 0 hval, foldl_credit_sum]
  simp

/-- Closed witness for `gpa_weighted_average` at the list A/3 credits,
B/2 credits, whose GPA is (4·3 + 3·2)/(3 + 2) = 18/5. -/
theorem gpa_weighted_average_witness :
    ([⟨"A", 3, none⟩, ⟨"B", 2, none⟩] : List Credit) ≠ [] ∧
    (∀ c ∈ ([⟨"A", 3, none⟩, ⟨"B", 2, none⟩] : List Credit), (gradeValue c.grade).isSome) ∧
    calculateGpa [⟨"A", 3, none⟩, ⟨"B", 2, none⟩] = some (18 / 5) := by
  refine ⟨by decide, by decide, ?_⟩
  have h := (gpa_weighted_average [⟨"A", 3, none⟩, ⟨"B", 2, none⟩] (by decide) (by decide)).2
  rw [h]
  simp [gradeValue]
  norm_num

/-- C2: on the empty list the division is short-circuited and the GPA is
exactly 0, never NaN (`none` models NaN). -/
theorem gpa_empty_zero : calculateGpa [] = some 0 ∧ calculateGpa [] ≠ none := by
  exact ⟨rfl, by simp [calculateGpa]⟩

/-! ## The grade regex: characterisation -/

/-- The left alternative `^[A-D][+-]?` matches starting at `i` iff `i = 0`
and the first character of the input is one of A, B, C, D. -/
lemma branch1_run_ne (cs : List Char) (i : ℕ) :
    Regex.run cs
        (Regex.seq Regex.startAnchor
          (Regex.seq (Regex.cls ['A', 'B', 'C', 'D']) (Regex.opt (Regex.cls ['+', '-'])))) i
      ≠ [] ↔
    i = 0 ∧ ∃ c rest, cs = c :: rest ∧ (c = 'A' ∨ c = 'B' ∨ c = 'C' ∨ c = 'D') := by
  cases i with
  | zero =>
    cases cs with
    | nil => simp [Regex.run]
    | cons c rest =>
      by_cases hc : c = 'A' ∨ c = 'B' ∨ c = 'C' ∨ c = 'D'
      · simp [Regex.run, hc]
      · simp [Regex.run, hc]
  | succ n => simp [Regex.run]

/-- The right alternative `F$` matches starting at `i` iff position `i`
holds the character F and is the last position of the input. -/
lemma branch2_run_ne (cs : List Char) (i : ℕ) :
    Regex.run cs (Regex.seq (Regex.char 'F') Regex.endAnchor) i ≠ [] ↔
    cs[i]? = some 'F' ∧ i + 1 = cs.length := by
  cases h : cs[i]? with
  | none => simp [Regex.run, h]
  | some c =>
    by_cases hc : c = 'F'
    · subst hc
      by_cases hl : i + 1 = cs.length
      · simp [Regex.run, h, hl]
      · simp [Regex.run, h, hl]
    · simp [Regex.run, h, hc]

/-- A match of the grade pattern starts at `i` iff either the left
alternative matches there (only possible at `i = 0`) or the right one
does. -/
lemma run_gradeRegex_ne (cs : List Char) (i : ℕ) :
    Regex.run cs gradeRegex i ≠ [] ↔
      (i = 0 ∧ ∃ c rest, cs = c :: rest ∧ (c = 'A' ∨ c = 'B' ∨ c = 'C' ∨ c = 'D')) ∨
      (cs[i]? = some 'F' ∧ i + 1 = cs.length) := by
  have halt : Regex.run cs gradeRegex i
      = Regex.run cs
          (Regex.seq Regex.startAnchor
            (Regex.seq (Regex.cls ['A', 'B', 'C', 'D']) (Regex.opt (Regex.cls ['+', '-'])))) i
        ++ Regex.run cs (Regex.seq (Regex.char 'F') Regex.endAnchor) i := rfl
  rw [halt, ne_eq, List.append_eq_nil, not_and_or, ← ne_eq, ← ne_eq,
    branch1_run_ne, branch2_run_ne]

/-- The unanchored test of `/^[A-D][+-]?|F$/` accepts a string iff its
first character is one of A, B, C, D or its last character is F. -/
lemma gradeRegexTest_iff (s : String) :
    gradeRegexTest s = true ↔
      (∃ c rest, s.data = c :: rest ∧ (c = 'A' ∨ c = 'B' ∨ c = 'C' ∨ c = 'D')) ∨
      s.data.getLast? = some 'F' := by
  unfold gradeRegexTest
  rw [List.any_eq_true]
  constructor
  · rintro ⟨i, hi, hrun⟩
    have hne : Regex.run s.data gradeRegex i ≠ [] := by
      intro h0
      rw [h0] at hrun
      simp at hrun
    rcases (run_gradeRegex_ne s.data i).mp hne with ⟨_, hex⟩ | ⟨hF, hlen⟩
    · exact Or.inl hex
    · refine Or.inr ?_
      rw [List.getLast?_eq_getElem?]
      have hidx : s.data.length - 1 = i := by omega
      rw [hidx]
      exact hF
  · rintro (⟨c, rest, hcs, hc⟩ | hlast)
    · refine ⟨0, by simp, ?_⟩
      have hne := (run_gradeRegex_ne s.data 0).mpr (Or.inl ⟨rfl, c, rest, hcs, hc⟩)
      simpa [List.isEmpty_iff] using hne
    · have hnil : s.data ≠ [] := by
        intro h0
        rw [h0] at hlast
        simp at hlast
      have hpos : 0 < s.data.length := List.length_pos.mpr hnil
      refine ⟨s.data.length - 1, ?_, ?_⟩
      · rw [List.mem_range]
        omega
      · have hF : s.data[s.data.length - 1]? = some 'F' := by
          rw [← List.getLast?_eq_getElem?]
          exact hlast
        have hne := (run_gradeRegex_ne s.data (s.data.length - 1)).mpr
          (Or.inr ⟨hF, by omega⟩)
        simpa [List.isEmpty_iff] using hne

/-! ## C4: the Validator -/

/-- C4 counterexample: the grade string AZ does not match the claimed
anchored pattern (one of A, B, C, D optionally followed by + or -, or
exactly F), yet the Validator accepts the record, because the source regex
`/^[A-D][+-]?|F$/` does not anchor the left alternative at the end of the
string. -/
theorem validator_loose_counterexample :
    parseCredit (Json.obj [("grade", Json.str "AZ"), ("credits", Json.num 3)]) =
      some { grade := "AZ", credits := 3, note := none } ∧
    specGradePattern "AZ" = false := by
  constructor
  · decide
  · decide

/-- C4 amended: the Validator accepts a JSON value iff it is an object
whose `grade` field is a string whose first character is one of A, B, C, D
or whose last character is F (extra characters are allowed around these),
whose `credits` field is an integer number between 1 and 4, and whose
`note` field is absent or a string. -/
theorem validator_accepts_iff (j : Json) :
    (parseCredit j).isSome = true ↔
      ∃ fields, j = Json.obj fields ∧
        (∃ g, lookupField fields "grade" = some (Json.str g) ∧
          ((∃ c rest, g.data = c :: rest ∧ (c = 'A' ∨ c = 'B' ∨ c = 'C' ∨ c = 'D')) ∨
            g.data.getLast? = some 'F')) ∧
        (∃ q, lookupField fields "credits" = some (Json.num q) ∧
          q.den = 1 ∧ 1 ≤ q ∧ q ≤ 4) ∧
        (lookupField fields "note" = none ∨
          ∃ s, lookupField fields "note" = some (Json.str s)) := by
  cases j with
  | obj fields =>
    constructor
    · intro h
      simp only [parseCredit] at h
      split at h
      case _ g heq =>
        split at h
        case isTrue hg =>
          split at h
          case _ q heq2 =>
            split at h
            case isTrue hq =>
              split at h
              case _ heq3 =>
                exact ⟨fields, rfl, ⟨g, heq, (gradeRegexTest_iff g).mp hg⟩,
                  ⟨q, heq2, hq⟩, Or.inl heq3⟩
              case _ s heq3 =>
                exact ⟨fields, rfl, ⟨g, heq, (gradeRegexTest_iff g).mp hg⟩,
                  ⟨q, heq2, hq⟩, Or.inr ⟨s, heq3⟩⟩
              case _ => simp at h
            case isFalse hq => simp at h
          case _ => simp at h
        case isFalse hg => simp at h
      case _ => simp at h
    · rintro ⟨fields2, hfj, ⟨g, hg, hpat⟩, ⟨q, hq, hden, h1, h4⟩, hnote⟩
      injection hfj with hf
      subst hf
      have hgt := (gradeRegexTest_iff g).mpr hpat
      rcases hnote with hnote | ⟨s, hnote⟩ <;>
        simp [parseCredit, hg, hq, hgt, hden, h1, h4, hnote]
  | null => simp [parseCredit]
  | bool b => simp [parseCredit]
  | num q => simp [parseCredit]
  | str s => simp [parseCredit]
  | arr xs => simp [parseCredit]

/-! ## Validation soundness and serialisation round trip -/

/-- Whatever record the Validator outputs satisfies the typed validity
predicate. -/
lemma parseCredit_sound {j : Json} {c : Credit} (h : parseCredit j = some c) :
    validCredit c := by
  cases j with
  | obj fields =>
    simp only [parseCredit] at h
    split at h
    case _ g heq =>
      split at h
      case isTrue hg =>
        split at h
        case _ q heq2 =>
          split at h
          case isTrue hq =>
            obtain ⟨hden, hq1, hq4⟩ := hq
            have hnum : (q.num : ℚ) = q := (Rat.den_eq_one_iff q).mp hden
            have hb1 : (1 : ℤ) ≤ q.num := by
              have : (1 : ℚ) ≤ (q.num : ℚ) := by rw [hnum]; exact hq1
              exact_mod_cast this
            have hb4 : q.num ≤ (4 : ℤ) := by
              have : (q.num : ℚ) ≤ (4 : ℚ) := by rw [hnum]; exact hq4
              exact_mod_cast this
            split at h
            case _ heq3 =>
              cases h
              exact ⟨hg, hb1, hb4⟩
            case _ s heq3 =>
              cases h
              exact ⟨hg, hb1, hb4⟩
            case _ => simp at h
          case isFalse hq => simp at h
        case _ => simp at h
      case isFalse hg => simp at h
    case _ => simp at h
  | null => simp [parseCredit] at h
  | bool b => simp [parseCredit] at h
  | num q => simp [parseCredit] at h
  | str s => simp [parseCredit] at h
  | arr xs => simp [parseCredit] at h

/-- Every element of a validated array satisfies the validity predicate. -/
lemma parseCreditList_sound {xs : List Json} {l : List Credit}
    (h : parseCreditList xs = some l) : ∀ c ∈ l, validCredit c := by
  induction xs generalizing l with
  | nil =>
    simp only [parseCreditList] at h
    cases h
    simp
  | cons x tl ih =>
    simp only [parseCreditList] at h
    cases hx : parseCredit x with
    | none => rw [hx] at h; simp at h
    | some c0 =>
      rw [hx] at h
      cases htl : parseCreditList tl with
      | none => rw [htl] at h; simp at h
      | some cs0 =>
        rw [htl] at h
        simp only [Option.bind_some, Option.map_some'] at h
        cases h
        intro c hc
        rcases List.mem_cons.mp hc with hc | hc
        · exact hc ▸ parseCredit_sound hx
        · exact ih htl c hc

/-- Every record of a list accepted by `creditsSchema` satisfies the
validity predicate. -/
lemma parseCredits_sound {j : Json} {l : List Credit}
    (h : parseCredits j = some l) : ∀ c ∈ l, validCredit c := by
  cases j with
  | arr xs => exact parseCreditList_sound h
  | null => simp [parseCredits] at h
  | bool b => simp [parseCredits] at h
  | num q => simp [parseCredits] at h
  | str s => simp [parseCredits] at h
  | obj fields => simp [parseCredits] at h

/-- Serialising one valid record and validating it again restores the
record. -/
lemma parseCredit_roundTrip (c : Credit) (h : validCredit c) :
    parseCredit (creditToJson c) = some c := by
  obtain ⟨g, cr, note⟩ := c
  obtain ⟨h1, h2, h3⟩ := h
  have hden : ((cr : ℚ)).den = 1 := Rat.den_intCast cr
  have hnum : ((cr : ℚ)).num = cr := Rat.num_intCast cr
  have hle1 : (1 : ℚ) ≤ (cr : ℚ) := by exact_mod_cast h2
  have hle4 : ((cr : ℚ)) ≤ 4 := by exact_mod_cast h3
  cases note with
  | none => simp [parseCredit, creditToJson, lookupField, h1, hden, hnum, hle1, hle4]
  | some s => simp [parseCredit, creditToJson, lookupField, h1, hden, hnum, hle1, hle4]

/-- Serialising a valid list and validating it again restores the list. -/
lemma parseCreditList_roundTrip (l : List Credit) (h : ∀ c ∈ l, validCredit c) :
    parseCreditList (l.map creditToJson) = some l := by
  induction l with
  | nil => rfl
  | cons c tl ih =>
    have hc := h c (by simp)
    have htl : ∀ c2 ∈ tl, validCredit c2 := fun c2 hc2 => h c2 (by simp [hc2])
    simp [parseCreditList, parseCredit_roundTrip c hc, ih htl]

/-! ## C3: persistence round trip -/

/-- C3: persisting a valid list to the credits storage slot, exactly as
`handleAdd` and `handleRemove` do, and then running the hydration effect
restores a credits list equal to the persisted one. -/
theorem persistence_round_trip (st : AppState) (l : List Credit)
    (h : ∀ c ∈ l, validCredit c) :
    ∃ w2, load { state := st, storage := persist l } = some w2 ∧
      w2.state.credits = l := by
  refine ⟨{ state := { st with gpa := calculateGpa l, credits := l },
            storage := persist l }, ?_, rfl⟩
  simp [load, loadRaw, persist, parseCredits, creditsToJson, parseCreditList_roundTrip l h]

/-- Closed witness for `persistence_round_trip` at a two-record list. -/
theorem persistence_round_trip_witness :
    (∀ c ∈ ([⟨"A", 3, some "hw"⟩, ⟨"B+", 2, none⟩] : List Credit), validCredit c) ∧
    ∃ w2, load { state := initialState, storage := persist [⟨"A", 3, some "hw"⟩, ⟨"B+", 2, none⟩] } = some w2 ∧
      w2.state.credits = [⟨"A", 3, some "hw"⟩, ⟨"B+", 2, none⟩] :=
  ⟨by decide, persistence_round_trip initialState _ (by decide)⟩

/-! ## C5: hydration behaviour -/

/-- C5 counterexample: when the stored text is not well-formed JSON the
uncaught `JSON.parse` call throws (`none`), so `load` does not fall back to
the empty state. -/
theorem load_malformed_counterexample :
    load { state := initialState, storage := Stored.malformed } = none := rfl

/-- C5 amended: for every storage content except text that is not
well-formed JSON (the empty string, being falsy, is replaced by the `[]`
default before parsing), `load` does not throw and either leaves the state
untouched or installs a fully validated list together with its recomputed
GPA. -/
theorem load_no_throw_amended (st : AppState) (s : Stored)
    (h : s ≠ Stored.malformed) :
    ∃ w2, load { state := st, storage := s } = some w2 ∧ w2.storage = s ∧
      (w2.state = st ∨
        ((∀ c ∈ w2.state.credits, validCredit c) ∧
          w2.state.gpa = calculateGpa w2.state.credits)) := by
  cases s with
  | malformed => exact absurd rfl h
  | missing => exact ⟨_, rfl, rfl, Or.inr ⟨by simp, rfl⟩⟩
  | empty => exact ⟨_, rfl, rfl, Or.inr ⟨by simp, rfl⟩⟩
  | json jv =>
    cases hp : parseCredits jv with
    | none =>
      refine ⟨{ state := st, storage := Stored.json jv }, ?_, rfl, Or.inl rfl⟩
      simp [load, loadRaw, hp]
    | some data =>
      refine ⟨{ state := { st with gpa := calculateGpa data, credits := data },
                storage := Stored.json jv }, ?_, rfl, Or.inr ⟨?_, rfl⟩⟩
      · simp [load, loadRaw, hp]
      · exact fun c hc => parseCredits_sound hp c hc

/-- Closed witness for `load_no_throw_amended` at a missing storage key. -/
theorem load_no_throw_witness :
    (Stored.missing ≠ Stored.malformed) ∧
    ∃ w2, load { state := initialState, storage := Stored.missing } = some w2 ∧
      w2.storage = Stored.missing ∧
      (w2.state = initialState ∨
        ((∀ c ∈ w2.state.credits, validCredit c) ∧
          w2.state.gpa = calculateGpa w2.state.credits)) :=
  ⟨by simp, load_no_throw_amended initialState Stored.missing (by simp)⟩

/-! ## C6: removeAll -/

/-- C6: from any state, `handleRemoveAll` empties the list, resets the GPA
to exactly 0, deletes the persisted key (a key removal, distinct from every
write of a serialised list, in particular from a stored empty array), and a
subsequent `load` succeeds through the missing-key fallback with the empty
list and GPA 0. -/
theorem remove_all_clears (w : World) :
    (handleRemoveAll w).state.credits = [] ∧
    (handleRemoveAll w).state.gpa = some 0 ∧
    (handleRemoveAll w).storage = Stored.missing ∧
    (∀ l : List Credit, (handleRemoveAll w).storage ≠ persist l) ∧
    (∃ w2, load (handleRemoveAll w) = some w2 ∧
      w2.state.credits = [] ∧ w2.state.gpa = some 0) := by
  refine ⟨rfl, rfl, rfl, ?_, ⟨_, rfl, rfl, rfl⟩⟩
  intro l hl
  exact Stored.noConfusion hl

/-! ## C7: add with a missing selection -/

/-- C7: when the grade selection or the credit selection is null,
`handleAdd` returns the world unchanged: same list, same GPA, same
storage contents, no write. -/
theorem add_noop_when_unselected (w : World)
    (h : w.state.grade = none ∨ w.state.credit = none) :
    handleAdd w = w := by
  obtain ⟨⟨gpa, credits, grade, credit, note⟩, storage⟩ := w
  rcases h with h | h <;> simp only at h <;> subst h
  · rfl
  · cases grade <;> rfl

/-- Closed witness for `add_noop_when_unselected`: a world with a pending
credit selection but no grade selection. -/
theorem add_noop_witness :
    handleAdd { state := { gpa := some 0, credits := [], grade := none, credit := some 3, note := "x" }, storage := Stored.missing }
      = { state := { gpa := some 0, credits := [], grade := none, credit := some 3, note := "x" }, storage := Stored.missing } :=
  add_noop_when_unselected _ (Or.inl rfl)

/-! ## C8, C10: remove -/

/-- `splice(index, 1)` at an in-range non-negative index removes the
element at that position. -/
lemma spliceRemoveOne_nonneg {α : Type} (l : List α) (index : Int)
    (h0 : 0 ≤ index) (hlt : index < (l.length : Int)) :
    spliceRemoveOne l index = l.take index.toNat ++ l.drop (index.toNat + 1) := by
  unfold spliceRemoveOne
  rw [if_neg (not_lt.mpr h0)]
  have hle : index.toNat ≤ l.length := by omega
  rw [min_eq_left hle]

/-- `splice(index, 1)` at an index at or beyond the length removes
nothing. -/
lemma spliceRemoveOne_ge {α : Type} (l : List α) (index : Int)
    (hge : (l.length : Int) ≤ index) :
    spliceRemoveOne l index = l := by
  unfold spliceRemoveOne
  rw [if_neg (not_lt.mpr (le_trans (by omega) hge))]
  have hmin : min index.toNat l.length = l.length := min_eq_right (by omega)
  rw [hmin]
  have hd : l.drop (l.length + 1) = [] := List.drop_eq_nil_of_le (by omega)
  simp [hd]

/-- `splice(index, 1)` at a negative index starts at `length + index`
clamped to 0. -/
lemma spliceRemoveOne_neg {α : Type} (l : List α) (index : Int)
    (hneg : index < 0) :
    spliceRemoveOne l index =
      l.take ((l.length : Int) + index).toNat ++
        l.drop (((l.length : Int) + index).toNat + 1) := by
  unfold spliceRemoveOne
  rw [if_pos hneg]

/-- C8: for `0 ≤ index < length`, `handleRemove` deletes exactly the record
at that position, keeping the records before it and after it in order,
recomputes the GPA from the shortened list, and persists the shortened
list. -/
theorem remove_in_range (w : World) (index : Int) (h0 : 0 ≤ index)
    (hlt : index < (w.state.credits.length : Int)) :
    (handleRemove w index).state.credits =
      w.state.credits.take index.toNat ++ w.state.credits.drop (index.toNat + 1) ∧
    (handleRemove w index).state.gpa =
      calculateGpa (w.state.credits.take index.toNat ++ w.state.credits.drop (index.toNat + 1)) ∧
    (handleRemove w index).storage =
      persist (w.state.credits.take index.toNat ++ w.state.credits.drop (index.toNat + 1)) ∧
    (w.state.credits.take index.toNat ++ w.state.credits.drop (index.toNat + 1)).length + 1 =
      w.state.credits.length := by
  have hs := spliceRemoveOne_nonneg w.state.credits index h0 hlt
  refine ⟨?_, ?_, ?_, ?_⟩
  · simp [handleRemove, hs]
  · simp [handleRemove, hs]
  · simp [handleRemove, hs]
  · simp only [List.length_append, List.length_take, List.length_drop]
    omega

/-- Closed witness for `remove_in_range`: removing index 1 from a
three-record list keeps records 0 and 2 in order. -/
theorem remove_in_range_witness :
    (handleRemove { state := { gpa := some 0, credits := [⟨"A", 3, none⟩, ⟨"B", 2, none⟩, ⟨"C", 1, none⟩], grade := none, credit := none, note := "" }, storage := Stored.missing } 1).state.credits
      = [⟨"A", 3, none⟩, ⟨"C", 1, none⟩] ∧
    (handleRemove { state := { gpa := some 0, credits := [⟨"A", 3, none⟩, ⟨"B", 2, none⟩, ⟨"C", 1, none⟩], grade := none, credit := none, note := "" }, storage := Stored.missing } 1).state.gpa
      = calculateGpa [⟨"A", 3, none⟩, ⟨"C", 1, none⟩] := by
  have h := remove_in_range
    { state := { gpa := some 0, credits := [⟨"A", 3, none⟩, ⟨"B", 2, none⟩, ⟨"C", 1, none⟩], grade := none, credit := none, note := "" }, storage := Stored.missing }
    1 (by decide) (by decide)
  exact ⟨h.1, h.2.1⟩

/-- C10 counterexample: the claim says a negative index removes the element
counted from the end; but removing index -5 from a two-record list, where
`2 + (-5) < 0` means no position counted five from the end exists, still
removes the first record (splice clamps the start to 0). -/
theorem remove_negative_counterexample :
    (handleRemove { state := { gpa := some 0, credits := [⟨"A", 3, none⟩, ⟨"B", 2, none⟩], grade := none, credit := none, note := "" }, storage := Stored.missing } (-5)).state.credits
      = [⟨"B", 2, none⟩] ∧
    ((2 : Int) + (-5) < 0) := by
  constructor
  · decide
  · decide

/-- C10 amended: for `index ≥ length`, `handleRemove` leaves the list
unchanged, recomputes the GPA from that same list and still writes the
unchanged list back to storage; for a negative `index` it removes the
element at position `length + index` clamped to 0 (so an index below
`-length` removes the first element, and on an empty list nothing is
removed), again recomputing and persisting. -/
theorem remove_out_of_range_amended (w : World) (index : Int) :
    ((w.state.credits.length : Int) ≤ index →
      (handleRemove w index).state.credits = w.state.credits ∧
      (handleRemove w index).state.gpa = calculateGpa w.state.credits ∧
      (handleRemove w index).storage = persist w.state.credits) ∧
    (index < 0 →
      (handleRemove w index).state.credits =
        w.state.credits.take ((w.state.credits.length : Int) + index).toNat ++
          w.state.credits.drop ((((w.state.credits.length : Int) + index).toNat) + 1) ∧
      (handleRemove w index).state.gpa =
        calculateGpa ((handleRemove w index).state.credits) ∧
      (handleRemove w index).storage =
        persist ((handleRemove w index).state.credits)) := by
  constructor
  · intro hge
    have hs := spliceRemoveOne_ge w.state.credits index hge
    exact ⟨by simp [handleRemove, hs], by simp [handleRemove, hs], by simp [handleRemove, hs]⟩
  · intro hneg
    have hs := spliceRemoveOne_neg w.state.credits index hneg
    exact ⟨by simp [handleRemove, hs], rfl, rfl⟩

/-- Closed witness for `remove_out_of_range_amended`: index 5 on a
one-record list removes nothing; index -1 on the same list removes its
last (only) element. -/
theorem remove_out_of_range_witness :
    (handleRemove { state := { gpa := some 0, credits := [⟨"A", 3, none⟩], grade := none, credit := none, note := "" }, storage := Stored.missing } 5).state.credits
      = [⟨"A", 3, none⟩] ∧
    (handleRemove { state := { gpa := some 0, credits := [⟨"A", 3, none⟩], grade := none, credit := none, note := "" }, storage := Stored.missing } (-1)).state.credits
      = [] := by
  have h1 := (remove_out_of_range_amended
    { state := { gpa := some 0, credits := [⟨"A", 3, none⟩], grade := none, credit := none, note := "" }, storage := Stored.missing } 5).1 (by decide)
  have h2 := (remove_out_of_range_amended
    { state := { gpa := some 0, credits := [⟨"A", 3, none⟩], grade := none, credit := none, note := "" }, storage := Stored.missing } (-1)).2 (by decide)
  exact ⟨h1.1, by simpa using h2.1⟩

/-! ## C9: display rounding -/

/-- C9: the display value is the raw GPA rounded to two decimal places with
round-half-up semantics: `round v 2` is an integer number of hundredths `k`
with `k - 1/2 ≤ 100·v < k + 1/2` (so the exact half-way point rounds
upwards); the recurring value 11/3 = 3.666... displays as 3.67; and the
hover query returns the raw stored GPA unchanged. -/
theorem display_rounding_half_up :
    (∀ v : ℚ, ∃ k : ℤ, round v 2 = (k : ℚ) / 100 ∧
      (k : ℚ) - 1 / 2 ≤ 100 * v ∧ 100 * v < (k : ℚ) + 1 / 2) ∧
    round (11 / 3 : ℚ) 2 = 367 / 100 ∧
    ∀ s : AppState, displayedGpa s true = s.gpa := by
  have hround : ∀ v : ℚ, round v 2 = ((⌊v * 10 ^ 2 + 1 / 2⌋ : ℤ) : ℚ) / 100 := by
    intro v
    unfold round toFixed mathRound
    have hcancel : ((⌊v * 10 ^ 2 + 1 / 2⌋ : ℤ) : ℚ) / 10 ^ 2 * 10 ^ 2
        = ((⌊v * 10 ^ 2 + 1 / 2⌋ : ℤ) : ℚ) := by
      field_simp
    rw [hcancel]
    have hint : (⌊((⌊v * 10 ^ 2 + 1 / 2⌋ : ℤ) : ℚ) + 1 / 2⌋ : ℤ) = ⌊v * 10 ^ 2 + 1 / 2⌋ := by
      rw [Int.floor_int_add]
      have : (⌊(1 / 2 : ℚ)⌋ : ℤ) = 0 := by
        rw [Int.floor_eq_iff]; norm_num
      omega
    rw [hint]
    norm_num
  refine ⟨?_, ?_, fun s => rfl⟩
  · intro v
    have h100 : v * 10 ^ 2 = 100 * v := by ring
    refine ⟨⌊v * 10 ^ 2 + 1 / 2⌋, hround v, ?_, ?_⟩
    · have h := Int.floor_le (v * 10 ^ 2 + 1 / 2)
      linarith [h, h100]
    · have h := Int.lt_floor_add_one (v * 10 ^ 2 + 1 / 2)
      linarith [h, h100]
  · rw [hround]
    have h367 : (⌊(11 / 3 : ℚ) * 10 ^ 2 + 1 / 2⌋ : ℤ) = 367 := by
      rw [Int.floor_eq_iff]; norm_num
    rw [h367]
    norm_num

end WhatMyGpa
